import Mathlib

/-!
Verification of the line-bot-project conversation-scoped translation
coordinator.  The JavaScript sources are shallowly embedded: JS `Map`s
become association lists, JS `Set`s of language codes become
insertion-ordered duplicate-free lists, the DeepSeek HTTP call becomes an
oracle `Nat → BackendOutcome` giving the outcome of each attempt, and
`async` control flow becomes explicit state passing.
-/

namespace LineBot

/-! ### Association lists modelling JS `Map` semantics

`lookupA` returns the first binding, `insertA` models `Map.set`
(replace in place, or append when absent), `eraseA` models `Map.delete`
(remove the binding).  A JS `Map` never holds two bindings for one key,
which is expressed by `Nodup` hypotheses on the key column where needed. -/

def lookupA {β : Type} (k : String) : List (String × β) → Option β
  | [] => none
  | (k', v) :: t => if k' = k then some v else lookupA k t

def insertA {β : Type} (k : String) (v : β) : List (String × β) → List (String × β)
  | [] => [(k, v)]
  | (k', v') :: t => if k' = k then (k, v) :: t else (k', v') :: insertA k v t

def eraseA {β : Type} (k : String) : List (String × β) → List (String × β)
  | [] => []
  | (k', v') :: t => if k' = k then t else (k', v') :: eraseA k t

theorem lookupA_insertA_self {β : Type} (k : String) (v : β) (l : List (String × β)) :
    lookupA k (insertA k v l) = some v := by
  induction l with
  | nil => simp [lookupA, insertA]
  | cons p t ih =>
    obtain ⟨k', v'⟩ := p
    by_cases h : k' = k
    · simp [lookupA, insertA, h]
    · simp [lookupA, insertA, h, ih]

theorem mem_insertA {β : Type} {k : String} {v : β} {l : List (String × β)}
    {p : String × β} (hp : p ∈ insertA k v l) : p = (k, v) ∨ p ∈ l := by
  induction l with
  | nil =>
    rw [insertA] at hp
    exact Or.inl (List.mem_singleton.mp hp)
  | cons q t ih =>
    obtain ⟨k', v'⟩ := q
    by_cases h : k' = k
    · simp only [insertA, h, if_pos rfl] at hp
      rcases List.mem_cons.mp hp with h1 | h1
      · exact Or.inl h1
      · exact Or.inr (List.mem_cons_of_mem _ h1)
    · simp only [insertA, if_neg h] at hp
      rcases List.mem_cons.mp hp with h1 | h1
      · exact Or.inr (h1 ▸ List.mem_cons_self _ _)
      · rcases ih h1 with h2 | h2
        · exact Or.inl h2
        · exact Or.inr (List.mem_cons_of_mem _ h2)

theorem mem_eraseA {β : Type} {k : String} {l : List (String × β)}
    {p : String × β} (hp : p ∈ eraseA k l) : p ∈ l := by
  induction l with
  | nil =>
    rw [eraseA] at hp
    exact absurd hp (List.not_mem_nil p)
  | cons q t ih =>
    obtain ⟨k', v'⟩ := q
    by_cases h : k' = k
    · simp only [eraseA, if_pos h] at hp
      exact List.mem_cons_of_mem _ hp
    · simp only [eraseA, if_neg h] at hp
      rcases List.mem_cons.mp hp with h1 | h1
      · exact h1 ▸ List.mem_cons_self _ _
      · exact List.mem_cons_of_mem _ (ih h1)

theorem lookupA_mem {β : Type} {k : String} {v : β} {l : List (String × β)}
    (h : lookupA k l = some v) : (k, v) ∈ l := by
  induction l with
  | nil => simp [lookupA] at h
  | cons q t ih =>
    obtain ⟨k', v'⟩ := q
    by_cases hk : k' = k
    · simp only [lookupA, if_pos hk] at h
      subst hk
      obtain rfl : v' = v := Option.some.inj h
      exact List.mem_cons_self _ _
    · simp only [lookupA, if_neg hk] at h
      exact List.mem_cons_of_mem _ (ih h)

theorem lookupA_eraseA_self {β : Type} {k : String} {l : List (String × β)}
    (hnd : (l.map Prod.fst).Nodup) : lookupA k (eraseA k l) = none := by
  induction l with
  | nil => simp [lookupA, eraseA]
  | cons q t ih =>
    obtain ⟨k', v'⟩ := q
    simp only [List.map_cons, List.nodup_cons] at hnd
    by_cases h : k' = k
    · simp only [eraseA, if_pos h]
      subst h
      cases hl : lookupA k' t with
      | none => rfl
      | some w =>
        exact absurd (List.mem_map_of_mem Prod.fst (lookupA_mem hl)) hnd.1
    · simp only [eraseA, if_neg h, lookupA, if_neg h]
      exact ih hnd.2

theorem keys_insertA_nodup {β : Type} {k : String} {v : β} {l : List (String × β)}
    (hnd : (l.map Prod.fst).Nodup) :
    ((insertA k v l).map Prod.fst).Nodup := by
  induction l with
  | nil => simp [insertA]
  | cons q t ih =>
    obtain ⟨k', v'⟩ := q
    simp only [List.map_cons, List.nodup_cons] at hnd
    by_cases h : k' = k
    · subst h
      simp only [insertA, if_true, List.map_cons, List.nodup_cons]
      exact hnd
    · simp only [insertA, if_neg h, List.map_cons, List.nodup_cons]
      refine ⟨fun hmem => ?_, ih hnd.2⟩
      rcases List.mem_map.mp hmem with ⟨p, hp, hfst⟩
      rcases mem_insertA hp with rfl | hp'
      · exact h hfst.symm
      · exact hnd.1 (hfst ▸ List.mem_map_of_mem Prod.fst hp')

/-! ### Translation backend model

`BackendOutcome` is the observable outcome of one `axios.post` to the
DeepSeek chat-completions endpoint: a successful translated string, an
HTTP 429 throttle rejection, or any other (fatal) error. -/

inductive BackendOutcome where
  | ok (s : String)
  | throttled
  | fatal
deriving DecidableEq, Repr

/-- Placeholder returned by part_011's `translateWithDeepSeek` on failure
(source string `（翻譯暫時不可用）`). -/
def unavailablePlaceholder : String := "（翻譯暫時不可用）"

/-- Trace of one `translateWithDeepSeek` run: the returned string, the
number of backend invocations performed, and the list of backoff delays
slept (milliseconds), in order. -/
structure TranslateTrace where
  result : String
  calls : Nat
  delays : List Nat
deriving DecidableEq, Repr

/-- Embedding of part_011's `translateWithDeepSeek` from the retry counter
`retry` on: try the backend; on success return the trimmed content; on a
429 with `retry < 3` sleep `(retry+1)*5000` ms and recurse with
`retry + 1`; on any other error, or when retries are exhausted, log and
return the placeholder.  The backend oracle gives the outcome of the
attempt made at each retry-counter value. -/
def translateFrom (backend : Nat → BackendOutcome) (retry : Nat) : TranslateTrace :=
  match backend retry with
  | .ok s => ⟨s, 1, []⟩
  | .fatal => ⟨unavailablePlaceholder, 1, []⟩
  | .throttled =>
    if h : retry < 3 then
      let rest := translateFrom backend (retry + 1)
      ⟨rest.result, rest.calls + 1, (retry + 1) * 5000 :: rest.delays⟩
    else ⟨unavailablePlaceholder, 1, []⟩
termination_by 3 - retry
decreasing_by omega

/-- Entry point of part_011's `translateWithDeepSeek(text, targetLang)`:
the retry counter starts at 0.  The backend oracle is indexed by the
input text and target language, mirroring the request body. -/
def translateWithDeepSeek (backend : String → String → Nat → BackendOutcome)
    (text targetLang : String) : TranslateTrace :=
  translateFrom (backend text targetLang) 0

theorem translateFrom_eq (backend : Nat → BackendOutcome) (retry : Nat) :
    translateFrom backend retry =
      match backend retry with
      | .ok s => ⟨s, 1, []⟩
      | .fatal => ⟨unavailablePlaceholder, 1, []⟩
      | .throttled =>
        if _h : retry < 3 then
          let rest := translateFrom backend (retry + 1)
          ⟨rest.result, rest.calls + 1, (retry + 1) * 5000 :: rest.delays⟩
        else ⟨unavailablePlaceholder, 1, []⟩ := by
  rw [translateFrom]

theorem translateFrom_ok {backend : Nat → BackendOutcome} {retry : Nat} {s : String}
    (hb : backend retry = .ok s) : translateFrom backend retry = ⟨s, 1, []⟩ := by
  rw [translateFrom_eq, hb]

theorem translateFrom_fatal {backend : Nat → BackendOutcome} {retry : Nat}
    (hb : backend retry = .fatal) :
    translateFrom backend retry = ⟨unavailablePlaceholder, 1, []⟩ := by
  rw [translateFrom_eq, hb]

theorem translateFrom_throttled_lt {backend : Nat → BackendOutcome} {retry : Nat}
    (hb : backend retry = .throttled) (h : retry < 3) :
    translateFrom backend retry =
      ⟨(translateFrom backend (retry + 1)).result,
        (translateFrom backend (retry + 1)).calls + 1,
        (retry + 1) * 5000 :: (translateFrom backend (retry + 1)).delays⟩ := by
  rw [translateFrom_eq, hb]
  simp [h]

theorem translateFrom_throttled_ge {backend : Nat → BackendOutcome} {retry : Nat}
    (hb : backend retry = .throttled) (h : ¬ retry < 3) :
    translateFrom backend retry = ⟨unavailablePlaceholder, 1, []⟩ := by
  rw [translateFrom_eq, hb]
  simp [h]

/-- Full behavioural specification of the retry loop, proved once from an
arbitrary retry-counter value by induction on the remaining budget. -/
theorem translateFrom_spec (backend : Nat → BackendOutcome) :
    ∀ (fuel retry : Nat), retry ≤ 3 → 3 - retry ≤ fuel →
    ((translateFrom backend retry).calls = (translateFrom backend retry).delays.length + 1) ∧
    ((translateFrom backend retry).delays.length + retry ≤ 3) ∧
    (∀ i : Nat, i < (translateFrom backend retry).delays.length →
        (translateFrom backend retry).delays.getD i 0 = (retry + i + 1) * 5000) ∧
    (backend retry = .fatal →
        translateFrom backend retry = ⟨unavailablePlaceholder, 1, []⟩) ∧
    ((∀ r, backend r = .throttled) →
        (translateFrom backend retry).result = unavailablePlaceholder ∧
        (translateFrom backend retry).calls + retry = 4) ∧
    ((translateFrom backend retry).result = unavailablePlaceholder ∨
        ∃ r, retry ≤ r ∧ r ≤ 3 ∧
          backend r = .ok (translateFrom backend retry).result) := by
  intro fuel
  induction fuel with
  | zero =>
    intro retry h1 h2
    have h3 : retry = 3 := by omega
    subst h3
    rcases hb : backend 3 with s | _ | _
    · rw [translateFrom_ok hb]
      refine ⟨rfl, by simp, ?_, ?_, ?_, ?_⟩
      · intro i hi; simp at hi
      · intro hf; cases hf
      · intro ht; have h4 := ht 3; rw [hb] at h4; cases h4
      · exact Or.inr ⟨3, le_refl 3, le_refl 3, hb⟩
    · rw [translateFrom_throttled_ge hb (by omega)]
      refine ⟨rfl, by simp, ?_, fun _ => rfl, ?_, Or.inl rfl⟩
      · intro i hi; simp at hi
      · exact fun _ => ⟨rfl, rfl⟩
    · rw [translateFrom_fatal hb]
      refine ⟨rfl, by simp, ?_, fun _ => rfl, ?_, Or.inl rfl⟩
      · intro i hi; simp at hi
      · intro ht; have h4 := ht 3; rw [hb] at h4; cases h4
  | succ n ih =>
    intro retry h1 h2
    rcases hb : backend retry with s | _ | _
    · rw [translateFrom_ok hb]
      refine ⟨rfl, by simpa using h1, ?_, ?_, ?_, ?_⟩
      · intro i hi; simp at hi
      · intro hf; cases hf
      · intro ht; have h4 := ht retry; rw [hb] at h4; cases h4
      · exact Or.inr ⟨retry, le_refl retry, h1, hb⟩
    · by_cases hlt : retry < 3
      · have hrec := ih (retry + 1) (by omega) (by omega)
        have hres : (translateFrom backend retry).result =
            (translateFrom backend (retry + 1)).result := by
          rw [translateFrom_throttled_lt hb hlt]
        have hcalls : (translateFrom backend retry).calls =
            (translateFrom backend (retry + 1)).calls + 1 := by
          rw [translateFrom_throttled_lt hb hlt]
        have hdelays : (translateFrom backend retry).delays =
            (retry + 1) * 5000 :: (translateFrom backend (retry + 1)).delays := by
          rw [translateFrom_throttled_lt hb hlt]
        refine ⟨?_, ?_, ?_, ?_, ?_, ?_⟩
        · rw [hcalls, hdelays, List.length_cons]
          have h4 := hrec.1
          omega
        · rw [hdelays, List.length_cons]
          have h4 := hrec.2.1
          omega
        · intro i hi
          rw [hdelays] at hi ⊢
          match i with
          | 0 =>
            rw [List.getD_cons_zero]
          | j + 1 =>
            rw [List.getD_cons_succ]
            simp only [List.length_cons] at hi
            have hj : j < (translateFrom backend (retry + 1)).delays.length := by omega
            rw [hrec.2.2.1 j hj]
            omega
        · intro hf; cases hf
        · intro ht
          have h4 := hrec.2.2.2.2.1 ht
          refine ⟨by rw [hres]; exact h4.1, ?_⟩
          rw [hcalls]
          have h5 := h4.2
          omega
        · rcases hrec.2.2.2.2.2 with hpl | ⟨r, hr1, hr2, hr3⟩
          · exact Or.inl (by rw [hres]; exact hpl)
          · exact Or.inr ⟨r, by omega, hr2, by rw [hres]; exact hr3⟩
      · rw [translateFrom_throttled_ge hb hlt]
        have h3 : retry = 3 := by omega
        subst h3
        refine ⟨rfl, by simp, ?_, fun _ => rfl, ?_, Or.inl rfl⟩
        · intro i hi; simp at hi
        · exact fun _ => ⟨rfl, rfl⟩
    · rw [translateFrom_fatal hb]
      refine ⟨rfl, by simpa using h1, ?_, fun _ => rfl, ?_, Or.inl rfl⟩
      · intro i hi; simp at hi
      · intro ht; have h4 := ht retry; rw [hb] at h4; cases h4

/-- C1: for every input text and target language, `translateWithDeepSeek`
never propagates an error to its caller (it always returns a string
trace): on rate limiting (HTTP 429) it retries with an increasing delay —
the i-th backoff delay is `(i+1) * 5000` ms, base 5 seconds times the
attempt number — with the retry counter capped at 3, so at most 3 retries
(at most 4 backend invocations) occur; on a fatal (non-429) first error it
returns the degraded-service placeholder immediately with no retry, and
when all attempts are throttled (retries exhausted) it likewise returns
the placeholder; every returned string is either a backend success or the
placeholder, never a raised error. -/
theorem translate_retry_backoff_never_fatal
    (backend : String → String → Nat → BackendOutcome) (text targetLang : String) :
    ((translateWithDeepSeek backend text targetLang).calls =
        (translateWithDeepSeek backend text targetLang).delays.length + 1 ∧
      (translateWithDeepSeek backend text targetLang).delays.length ≤ 3) ∧
    (∀ i : Nat, i < (translateWithDeepSeek backend text targetLang).delays.length →
        (translateWithDeepSeek backend text targetLang).delays.getD i 0 = (i + 1) * 5000) ∧
    (backend text targetLang 0 = BackendOutcome.fatal →
        translateWithDeepSeek backend text targetLang = ⟨unavailablePlaceholder, 1, []⟩) ∧
    ((∀ r, backend text targetLang r = BackendOutcome.throttled) →
        (translateWithDeepSeek backend text targetLang).result = unavailablePlaceholder ∧
        (translateWithDeepSeek backend text targetLang).calls = 4) ∧
    ((translateWithDeepSeek backend text targetLang).result = unavailablePlaceholder ∨
        ∃ r, r ≤ 3 ∧ backend text targetLang r =
          BackendOutcome.ok (translateWithDeepSeek backend text targetLang).result) := by
  have h := translateFrom_spec (backend text targetLang) 3 0 (by omega) (by omega)
  unfold translateWithDeepSeek
  refine ⟨⟨h.1, by have := h.2.1; omega⟩, ?_, h.2.2.2.1, ?_, ?_⟩
  · intro i hi
    have := h.2.2.1 i hi
    simpa using this
  · intro ht
    have := h.2.2.2.2.1 ht
    exact ⟨this.1, by omega⟩
  · rcases h.2.2.2.2.2 with hpl | ⟨r, _, hr2, hr3⟩
    · exact Or.inl hpl
    · exact Or.inr ⟨r, hr2, hr3⟩

/-- Witness for C1 at concrete inputs: an always-throttled backend yields
the placeholder after 4 invocations (3 retries), and an immediately fatal
backend yields the placeholder after exactly 1 invocation. -/
theorem translate_retry_backoff_never_fatal_witness :
    ((translateWithDeepSeek (fun _ _ _ => BackendOutcome.throttled) "你好" "en").result =
        unavailablePlaceholder ∧
      (translateWithDeepSeek (fun _ _ _ => BackendOutcome.throttled) "你好" "en").calls = 4) ∧
    translateWithDeepSeek (fun _ _ _ => BackendOutcome.fatal) "你好" "en" =
      ⟨unavailablePlaceholder, 1, []⟩ :=
  ⟨(translate_retry_backoff_never_fatal (fun _ _ _ => BackendOutcome.throttled) "你好"
      "en").2.2.2.1 (fun _ => rfl),
    (translate_retry_backoff_never_fatal (fun _ _ _ => BackendOutcome.fatal) "你好"
      "en").2.2.1 rfl⟩

/-! ### Cached single-language translation (part_007's `translateSingle`)

The `lru-cache` instance `singleCache` (`max 500, ttl 24h`) is modelled,
inside the cache horizon, as an association list from keys to cached
translations; the LRU bound and TTL eviction belong to the external
library and only remove entries, they never alter a live entry. -/

/-- Placeholder returned by part_007's `translateSingle` on failure
(source string `（翻譯失敗）`). -/
def failedPlaceholder : String := "（翻譯失敗）"

/-- Cache key used by part_007's `translateSingle`: `` `${lang}:${text}` ``. -/
def mkSingleKey (lang text : String) : String := lang ++ ":" ++ text

/-- Trace of one `translateSingle` run: the returned string, the cache
state afterwards, and the number of backend invocations performed. -/
structure SingleTrace where
  result : String
  cache : List (String × String)
  calls : Nat
deriving DecidableEq, Repr

/-- Embedding of part_007's `translateSingle(text, lang, retry)`: check
the cache first and return the hit without touching the backend; on a
miss call the backend, store and return a successful result, retry on a
429 while `retry < 3` (the recursive call re-checks the unchanged cache),
and on a fatal error or exhausted retries return the placeholder without
writing to the cache. -/
def translateSingle (backend : Nat → BackendOutcome) (cache : List (String × String))
    (text lang : String) (retry : Nat) : SingleTrace :=
  match lookupA (mkSingleKey lang text) cache with
  | some v => ⟨v, cache, 0⟩
  | none =>
    match backend retry with
    | .ok s => ⟨s, insertA (mkSingleKey lang text) s cache, 1⟩
    | .throttled =>
      if h : retry < 3 then
        let rest := translateSingle backend cache text lang (retry + 1)
        ⟨rest.result, rest.cache, rest.calls + 1⟩
      else ⟨failedPlaceholder, cache, 1⟩
    | .fatal => ⟨failedPlaceholder, cache, 1⟩
termination_by 3 - retry
decreasing_by omega

/-- Abstract outcome of the bounded retry loop: `some s` when some
attempt succeeds before a fatal error or exhaustion, `none` otherwise. -/
def loopResult (backend : Nat → BackendOutcome) (retry : Nat) : Option String :=
  match backend retry with
  | .ok s => some s
  | .throttled => if h : retry < 3 then loopResult backend (retry + 1) else none
  | .fatal => none
termination_by 3 - retry
decreasing_by omega

theorem translateSingle_eq (backend : Nat → BackendOutcome) (cache : List (String × String))
    (text lang : String) (retry : Nat) :
    translateSingle backend cache text lang retry =
      match lookupA (mkSingleKey lang text) cache with
      | some v => ⟨v, cache, 0⟩
      | none =>
        match backend retry with
        | .ok s => ⟨s, insertA (mkSingleKey lang text) s cache, 1⟩
        | .throttled =>
          if _h : retry < 3 then
            let rest := translateSingle backend cache text lang (retry + 1)
            ⟨rest.result, rest.cache, rest.calls + 1⟩
          else ⟨failedPlaceholder, cache, 1⟩
        | .fatal => ⟨failedPlaceholder, cache, 1⟩ := by
  rw [translateSingle]

theorem loopResult_eq (backend : Nat → BackendOutcome) (retry : Nat) :
    loopResult backend retry =
      match backend retry with
      | .ok s => some s
      | .throttled => if _h : retry < 3 then loopResult backend (retry + 1) else none
      | .fatal => none := by
  rw [loopResult]

theorem translateSingle_hit {backend : Nat → BackendOutcome} {cache : List (String × String)}
    {text lang : String} {retry : Nat} {v : String}
    (hv : lookupA (mkSingleKey lang text) cache = some v) :
    translateSingle backend cache text lang retry = ⟨v, cache, 0⟩ := by
  rw [translateSingle_eq, hv]

theorem translateSingle_miss_ok {backend : Nat → BackendOutcome}
    {cache : List (String × String)} {text lang : String} {retry : Nat} {s : String}
    (hmiss : lookupA (mkSingleKey lang text) cache = none)
    (hb : backend retry = .ok s) :
    translateSingle backend cache text lang retry =
      ⟨s, insertA (mkSingleKey lang text) s cache, 1⟩ := by
  rw [translateSingle_eq, hmiss, hb]

theorem translateSingle_miss_fatal {backend : Nat → BackendOutcome}
    {cache : List (String × String)} {text lang : String} {retry : Nat}
    (hmiss : lookupA (mkSingleKey lang text) cache = none)
    (hb : backend retry = .fatal) :
    translateSingle backend cache text lang retry = ⟨failedPlaceholder, cache, 1⟩ := by
  rw [translateSingle_eq, hmiss, hb]

theorem translateSingle_miss_throttled_lt {backend : Nat → BackendOutcome}
    {cache : List (String × String)} {text lang : String} {retry : Nat}
    (hmiss : lookupA (mkSingleKey lang text) cache = none)
    (hb : backend retry = .throttled) (h : retry < 3) :
    translateSingle backend cache text lang retry =
      ⟨(translateSingle backend cache text lang (retry + 1)).result,
        (translateSingle backend cache text lang (retry + 1)).cache,
        (translateSingle backend cache text lang (retry + 1)).calls + 1⟩ := by
  rw [translateSingle_eq, hmiss, hb]
  simp [h]

theorem translateSingle_miss_throttled_ge {backend : Nat → BackendOutcome}
    {cache : List (String × String)} {text lang : String} {retry : Nat}
    (hmiss : lookupA (mkSingleKey lang text) cache = none)
    (hb : backend retry = .throttled) (h : ¬ retry < 3) :
    translateSingle backend cache text lang retry = ⟨failedPlaceholder, cache, 1⟩ := by
  rw [translateSingle_eq, hmiss, hb]
  simp [h]

theorem loopResult_ok {backend : Nat → BackendOutcome} {retry : Nat} {s : String}
    (hb : backend retry = .ok s) : loopResult backend retry = some s := by
  rw [loopResult_eq, hb]

theorem loopResult_fatal {backend : Nat → BackendOutcome} {retry : Nat}
    (hb : backend retry = .fatal) : loopResult backend retry = none := by
  rw [loopResult_eq, hb]

theorem loopResult_throttled_lt {backend : Nat → BackendOutcome} {retry : Nat}
    (hb : backend retry = .throttled) (h : retry < 3) :
    loopResult backend retry = loopResult backend (retry + 1) := by
  rw [loopResult_eq, hb]
  simp [h]

theorem loopResult_throttled_ge {backend : Nat → BackendOutcome} {retry : Nat}
    (hb : backend retry = .throttled) (h : ¬ retry < 3) :
    loopResult backend retry = none := by
  rw [loopResult_eq, hb]
  simp [h]

/-- On a cache miss the run mirrors the loop outcome: a successful loop
stores exactly its result under the key, a failed loop leaves the cache
unchanged and returns the placeholder. -/
theorem translateSingle_miss_spec (backend : Nat → BackendOutcome)
    (cache : List (String × String)) (text lang : String)
    (hmiss : lookupA (mkSingleKey lang text) cache = none) :
    ∀ (fuel retry : Nat), 3 - retry ≤ fuel →
    (∀ s, loopResult backend retry = some s →
        (translateSingle backend cache text lang retry).result = s ∧
        (translateSingle backend cache text lang retry).cache =
          insertA (mkSingleKey lang text) s cache) ∧
    (loopResult backend retry = none →
        (translateSingle backend cache text lang retry).result = failedPlaceholder ∧
        (translateSingle backend cache text lang retry).cache = cache) := by
  intro fuel
  induction fuel with
  | zero =>
    intro retry hf
    have h3 : ¬ retry < 3 := by omega
    rcases hb : backend retry with s | _ | _
    · constructor
      · intro s' hs'
        rw [loopResult_ok hb] at hs'
        obtain rfl : s = s' := Option.some.inj hs'
        rw [translateSingle_miss_ok hmiss hb]
        exact ⟨rfl, rfl⟩
      · intro hn
        rw [loopResult_ok hb] at hn
        cases hn
    · constructor
      · intro s' hs'
        rw [loopResult_throttled_ge hb h3] at hs'
        cases hs'
      · intro _
        rw [translateSingle_miss_throttled_ge hmiss hb h3]
        exact ⟨rfl, rfl⟩
    · constructor
      · intro s' hs'
        rw [loopResult_fatal hb] at hs'
        cases hs'
      · intro _
        rw [translateSingle_miss_fatal hmiss hb]
        exact ⟨rfl, rfl⟩
  | succ n ih =>
    intro retry hf
    rcases hb : backend retry with s | _ | _
    · constructor
      · intro s' hs'
        rw [loopResult_ok hb] at hs'
        obtain rfl : s = s' := Option.some.inj hs'
        rw [translateSingle_miss_ok hmiss hb]
        exact ⟨rfl, rfl⟩
      · intro hn
        rw [loopResult_ok hb] at hn
        cases hn
    · by_cases hlt : retry < 3
      · have hrec := ih (retry + 1) (by omega)
        constructor
        · intro s' hs'
          rw [loopResult_throttled_lt hb hlt] at hs'
          have h4 := hrec.1 s' hs'
          rw [translateSingle_miss_throttled_lt hmiss hb hlt]
          exact h4
        · intro hn
          rw [loopResult_throttled_lt hb hlt] at hn
          have h4 := hrec.2 hn
          rw [translateSingle_miss_throttled_lt hmiss hb hlt]
          exact h4
      · constructor
        · intro s' hs'
          rw [loopResult_throttled_ge hb hlt] at hs'
          cases hs'
        · intro _
          rw [translateSingle_miss_throttled_ge hmiss hb hlt]
          exact ⟨rfl, rfl⟩
    · constructor
      · intro s' hs'
        rw [loopResult_fatal hb] at hs'
        cases hs'
      · intro _
        rw [translateSingle_miss_fatal hmiss hb]
        exact ⟨rfl, rfl⟩

/-- C2: a `translateSingle` call whose backend invocation fails (the
bounded retry loop produces no successful result) leaves the translation
cache unchanged — in particular the failure placeholder is never stored —
while a call whose backend invocation succeeds on a cache miss stores
exactly the successful result in the cache under the `lang:text` key. -/
theorem translate_cache_only_on_success (backend : Nat → BackendOutcome)
    (cache : List (String × String)) (text lang : String) :
    (loopResult backend 0 = none →
        (translateSingle backend cache text lang 0).cache = cache) ∧
    (∀ s, lookupA (mkSingleKey lang text) cache = none →
        loopResult backend 0 = some s →
        (translateSingle backend cache text lang 0).cache =
          insertA (mkSingleKey lang text) s cache ∧
        (translateSingle backend cache text lang 0).result = s) := by
  constructor
  · intro hn
    cases hmiss : lookupA (mkSingleKey lang text) cache with
    | some v => rw [translateSingle_hit hmiss]
    | none =>
      exact ((translateSingle_miss_spec backend cache text lang hmiss 3 0 (by omega)).2 hn).2
  · intro s hmiss hs
    have h := (translateSingle_miss_spec backend cache text lang hmiss 3 0 (by omega)).1 s hs
    exact ⟨h.2, h.1⟩

/-- Witness for C2 at concrete inputs: an always-throttled backend leaves
an empty cache empty, and a first-attempt success on an empty cache
stores exactly the translated string under `en:你好`. -/
theorem translate_cache_only_on_success_witness :
    (translateSingle (fun _ => BackendOutcome.throttled) [] "你好" "en" 0).cache = [] ∧
    (translateSingle (fun _ => BackendOutcome.ok "hello") [] "你好" "en" 0).cache =
      [(mkSingleKey "en" "你好", "hello")] := by
  refine ⟨(translate_cache_only_on_success (fun _ => BackendOutcome.throttled)
      [] "你好" "en").1 ?_,
    ((translate_cache_only_on_success (fun _ => BackendOutcome.ok "hello")
      [] "你好" "en").2 "hello" rfl ?_).1⟩
  · simp [loopResult_eq]
  · simp [loopResult_eq]

/-- C3: calling `translateSingle` twice with the same text and target
language inside the cache horizon invokes the backend at most once: when
the first attempt succeeds on a cache miss, the first call makes exactly
one backend invocation and stores the result under the key composed of
the text and the language, and the second call returns the cached value
with zero backend invocations, so the two calls together invoke the
backend exactly once. -/
theorem translate_idempotent_cached (backend : Nat → BackendOutcome)
    (cache : List (String × String)) (text lang s : String)
    (hmiss : lookupA (mkSingleKey lang text) cache = none)
    (hok : backend 0 = BackendOutcome.ok s) :
    translateSingle backend cache text lang 0 =
      ⟨s, insertA (mkSingleKey lang text) s cache, 1⟩ ∧
    translateSingle backend (translateSingle backend cache text lang 0).cache text lang 0 =
      ⟨s, insertA (mkSingleKey lang text) s cache, 0⟩ ∧
    (translateSingle backend cache text lang 0).calls +
      (translateSingle backend
        (translateSingle backend cache text lang 0).cache text lang 0).calls = 1 := by
  have h1 : translateSingle backend cache text lang 0 =
      ⟨s, insertA (mkSingleKey lang text) s cache, 1⟩ := by
    rw [translateSingle_eq, hmiss, hok]
  have h2 : translateSingle backend (translateSingle backend cache text lang 0).cache
      text lang 0 = ⟨s, insertA (mkSingleKey lang text) s cache, 0⟩ := by
    rw [h1]
    exact translateSingle_hit (lookupA_insertA_self (mkSingleKey lang text) s cache)
  refine ⟨h1, h2, ?_⟩
  rw [h2, h1]
  rfl

/-- Witness for C3 at concrete inputs: first call on an empty cache
translates and stores, second call is a pure cache hit. -/
theorem translate_idempotent_cached_witness :
    translateSingle (fun _ => BackendOutcome.ok "hello") [] "你好" "en" 0 =
      ⟨"hello", [(mkSingleKey "en" "你好", "hello")], 1⟩ ∧
    translateSingle (fun _ => BackendOutcome.ok "hello")
      (translateSingle (fun _ => BackendOutcome.ok "hello") [] "你好" "en" 0).cache
      "你好" "en" 0 = ⟨"hello", [(mkSingleKey "en" "你好", "hello")], 0⟩ :=
  ⟨(translate_idempotent_cached (fun _ => BackendOutcome.ok "hello") [] "你好" "en"
      "hello" rfl rfl).1,
    (translate_idempotent_cached (fun _ => BackendOutcome.ok "hello") [] "你好" "en"
      "hello" rfl rfl).2.1⟩

/-! ### Conversation language store (part_007's `groupLang` map and the
`set_lang` postback handler)

A conversation's selected-language set is a JS `Set` of language codes,
modelled as its insertion-ordered, duplicate-free element list. -/

/-- Reading a conversation's languages: `groupLang.get(gid)` with an
absent conversation yielding the empty set (`|| new Set()`). -/
def getLanguages (store : List (String × List String)) (gid : String) : List String :=
  (lookupA gid store).getD []

/-- The mutation applied to the selected set by the `set_lang` postback:
`"cancel"` clears the whole set (`set.clear()`), any other code is
toggled — removed when present (`set.delete(code)`), appended when absent
(`set.add(code)`). -/
def toggleCode (set : List String) (code : String) : List String :=
  if code = "cancel" then []
  else if code ∈ set then set.erase code else set ++ [code]

/-- Embedding of part_007's `set_lang` postback handler effect on the
store: compute the mutated set, then `groupLang.set(gid, set)` when it is
non-empty and `groupLang.delete(gid)` when it is empty. -/
def setLangPostback (store : List (String × List String)) (gid code : String) :
    List (String × List String) :=
  let set := toggleCode (getLanguages store gid) code
  if set = [] then eraseA gid store else insertA gid set store

/-- Embedding of part_007's `saveLang`: the durable snapshot written to
`groupLanguages.json` holds exactly the store's entries
(`groupLang.forEach((set,g)=> obj[g]=[...set])`). -/
def saveLangSnapshot (store : List (String × List String)) :
    List (String × List String) :=
  store

theorem keys_eraseA_nodup {β : Type} {k : String} {l : List (String × β)}
    (hnd : (l.map Prod.fst).Nodup) : ((eraseA k l).map Prod.fst).Nodup := by
  induction l with
  | nil => simp [eraseA]
  | cons q t ih =>
    obtain ⟨k', v'⟩ := q
    simp only [List.map_cons, List.nodup_cons] at hnd
    by_cases h : k' = k
    · simp only [eraseA, if_pos h]
      exact hnd.2
    · simp only [eraseA, if_neg h, List.map_cons, List.nodup_cons]
      refine ⟨fun hmem => ?_, ih hnd.2⟩
      rcases List.mem_map.mp hmem with ⟨p, hp, hfst⟩
      exact hnd.1 (hfst ▸ List.mem_map_of_mem Prod.fst (mem_eraseA hp))

theorem keys_setLangPostback_nodup {store : List (String × List String)}
    {gid code : String} (hkeys : (store.map Prod.fst).Nodup) :
    ((setLangPostback store gid code).map Prod.fst).Nodup := by
  unfold setLangPostback
  by_cases h : toggleCode (getLanguages store gid) code = []
  · simp only [h, if_pos rfl]
    exact keys_eraseA_nodup hkeys
  · simp only [if_neg h]
    exact keys_insertA_nodup hkeys

/-- After a `set_lang` postback, reading the same conversation's
languages yields exactly the mutated set. -/
theorem getLanguages_setLangPostback_self (store : List (String × List String))
    (gid code : String) (hkeys : (store.map Prod.fst).Nodup) :
    getLanguages (setLangPostback store gid code) gid =
      toggleCode (getLanguages store gid) code := by
  unfold setLangPostback
  by_cases h : toggleCode (getLanguages store gid) code = []
  · simp only [h, if_true]
    rw [getLanguages, lookupA_eraseA_self hkeys]
    rfl
  · simp only [if_neg h]
    rw [getLanguages, lookupA_insertA_self]
    rfl

/-- C4: for every conversation and every prior selection state, a
`set_lang` postback with code `"cancel"` clears the conversation's entire
selected-language set unconditionally: reading the conversation's
languages immediately afterwards yields the empty set. -/
theorem cancel_clears_languages (store : List (String × List String)) (gid : String)
    (hkeys : (store.map Prod.fst).Nodup) :
    getLanguages (setLangPostback store gid "cancel") gid = [] := by
  rw [getLanguages_setLangPostback_self store gid "cancel" hkeys]
  rw [toggleCode, if_pos rfl]

/-- Witness for C4 at a concrete input: cancelling in a conversation that
had selected `en` and `th` leaves it with no languages. -/
theorem cancel_clears_languages_witness :
    getLanguages (setLangPostback [("G1", ["en", "th"])] "G1" "cancel") "G1" = [] :=
  cancel_clears_languages [("G1", ["en", "th"])] "G1" (by simp)

/-- Toggling the same non-cancel code twice preserves exactly the
membership of the selected set. -/
theorem toggleCode_mem_twice (s : List String) (code : String)
    (hc : code ≠ "cancel") (hnd : s.Nodup) :
    ∀ x, x ∈ toggleCode (toggleCode s code) code ↔ x ∈ s := by
  intro x
  rw [toggleCode, toggleCode, if_neg hc, if_neg hc]
  by_cases hmem : code ∈ s
  · rw [if_pos hmem, if_neg (hnd.not_mem_erase)]
    by_cases hx : x = code
    · subst hx
      simp [hmem]
    · simp only [List.mem_append, List.mem_singleton, hx, or_false]
      exact List.mem_erase_of_ne hx
  · rw [if_neg hmem, if_pos (by simp : code ∈ s ++ [code])]
    rw [List.erase_append_right _ hmem]
    simp [List.erase_cons_head]

/-- C5: for every conversation and every language code `c` other than the
special `"cancel"` code, applying the `set_lang` toggle with `c` twice in
succession restores the conversation's original selected set (as a set:
same members), where a single toggle removes `c` when present and
appends it otherwise. -/
theorem toggle_twice_restores (store : List (String × List String)) (gid code : String)
    (hc : code ≠ "cancel")
    (hkeys : (store.map Prod.fst).Nodup)
    (hnd : (getLanguages store gid).Nodup) :
    ∀ x, x ∈ getLanguages
        (setLangPostback (setLangPostback store gid code) gid code) gid ↔
      x ∈ getLanguages store gid := by
  intro x
  rw [getLanguages_setLangPostback_self _ gid code (keys_setLangPostback_nodup hkeys),
    getLanguages_setLangPostback_self store gid code hkeys]
  exact toggleCode_mem_twice (getLanguages store gid) code hc hnd x

/-- Witness for C5 at a concrete input: toggling `th` twice in a
conversation that had `en` and `th` keeps `th` selected. -/
theorem toggle_twice_restores_witness :
    "th" ∈ getLanguages
        (setLangPostback (setLangPostback [("G1", ["en", "th"])] "G1" "th") "G1" "th")
        "G1" ↔
      "th" ∈ getLanguages [("G1", ["en", "th"])] "G1" :=
  toggle_twice_restores [("G1", ["en", "th"])] "G1" "th" (by decide) (by simp)
    (by simp [getLanguages, lookupA]) "th"

/-- C10: after a `set_lang` postback on a store whose entries all carry a
non-empty language list, (a) a toggle or cancel that leaves the mutated
set empty deletes the conversation's entry entirely, (b) the durable
snapshot written by `saveLang` afterwards never maps a conversation to an
empty language list, and (c) the store contains an entry for a
conversation id if and only if that conversation's selected-language set
is non-empty. -/
theorem setLang_entry_iff_nonempty (store : List (String × List String))
    (gid code : String)
    (hkeys : (store.map Prod.fst).Nodup)
    (hne : ∀ p ∈ store, p.2 ≠ ([] : List String)) :
    (toggleCode (getLanguages store gid) code = [] →
        lookupA gid (setLangPostback store gid code) = none) ∧
    (∀ p ∈ saveLangSnapshot (setLangPostback store gid code), p.2 ≠ ([] : List String)) ∧
    (∀ g, (lookupA g (setLangPostback store gid code)).isSome ↔
        getLanguages (setLangPostback store gid code) g ≠ []) := by
  have hsnap : ∀ p ∈ setLangPostback store gid code, p.2 ≠ ([] : List String) := by
    intro p hp
    unfold setLangPostback at hp
    by_cases h : toggleCode (getLanguages store gid) code = []
    · rw [if_pos h] at hp
      exact hne p (mem_eraseA hp)
    · rw [if_neg h] at hp
      rcases mem_insertA hp with rfl | hp'
      · exact h
      · exact hne p hp'
  refine ⟨?_, hsnap, ?_⟩
  · intro h
    unfold setLangPostback
    rw [if_pos h]
    exact lookupA_eraseA_self hkeys
  · intro g
    constructor
    · intro hsome
      rcases Option.isSome_iff_exists.mp hsome with ⟨v, hv⟩
      have hv' : getLanguages (setLangPostback store gid code) g = v := by
        rw [getLanguages, hv]
        rfl
      rw [hv']
      exact hsnap (g, v) (lookupA_mem hv)
    · intro hne'
      rw [getLanguages] at hne'
      cases hl : lookupA g (setLangPostback store gid code) with
      | none => rw [hl] at hne'; exact absurd rfl hne'
      | some v => rfl

/-- Witness for C10 at a concrete input: toggling `en` off in a
conversation that only had `en` deletes its entry, so the snapshot holds
no entry for it. -/
theorem setLang_entry_iff_nonempty_witness :
    lookupA "G1" (setLangPostback [("G1", ["en"])] "G1" "en") = none :=
  (setLang_entry_iff_nonempty [("G1", ["en"])] "G1" "en" (by simp)
    (by intro p hp; simp at hp; subst hp; simp)).1 (by decide)

/-! ### Reply-token deduplication guard (server.js / part_003
`processedReplyTokens`)

Each inbound event carries an optional reply token.  The guard check and
insertion (`processedReplyTokens.has` / `.add`) run synchronously before
any `await` in each event's handler, so across a batch they execute in
event order; an event proceeds to its handler — the only path to an
observable reply or push — exactly when its flag below is `true`. -/

def dedupRun (seen : List String) : List (Option String) → List (Option String × Bool)
  | [] => []
  | none :: rest => (none, true) :: dedupRun seen rest
  | some u :: rest =>
    if u ∈ seen then (some u, false) :: dedupRun seen rest
    else (some u, true) :: dedupRun (u :: seen) rest

/-- How many deliveries carrying reply token `t` were accepted (handled)
in a run. -/
def acceptedFor (t : String) : List (Option String × Bool) → Nat
  | [] => 0
  | (tok, handled) :: rest =>
    (if tok = some t ∧ handled = true then 1 else 0) + acceptedFor t rest

theorem acceptedFor_seen (t : String) :
    ∀ (toks : List (Option String)) (seen : List String), t ∈ seen →
      acceptedFor t (dedupRun seen toks) = 0 := by
  intro toks
  induction toks with
  | nil => intro seen _; rfl
  | cons tok rest ih =>
    intro seen ht
    match tok with
    | none =>
      rw [dedupRun, acceptedFor, if_neg (by simp)]
      rw [ih seen ht]
    | some u =>
      by_cases hu : u ∈ seen
      · rw [dedupRun, if_pos hu, acceptedFor, if_neg (by simp)]
        rw [ih seen ht]
      · have hut : u ≠ t := fun h => hu (h ▸ ht)
        rw [dedupRun, if_neg hu, acceptedFor, if_neg (by simp [hut])]
        rw [ih (u :: seen) (List.mem_cons_of_mem _ ht)]

theorem acceptedFor_unseen (t : String) :
    ∀ (toks : List (Option String)) (seen : List String), t ∉ seen →
      acceptedFor t (dedupRun seen toks) = if some t ∈ toks then 1 else 0 := by
  intro toks
  induction toks with
  | nil => intro seen _; simp [dedupRun, acceptedFor]
  | cons tok rest ih =>
    intro seen ht
    match tok with
    | none =>
      rw [dedupRun, acceptedFor, if_neg (by simp), ih seen ht]
      simp
    | some u =>
      by_cases hu : u ∈ seen
      · have hut : u ≠ t := fun h => ht (h ▸ hu)
        rw [dedupRun, if_pos hu, acceptedFor, if_neg (by simp), ih seen ht]
        simp [List.mem_cons, Ne.symm hut]
      · by_cases hut : u = t
        · subst hut
          rw [dedupRun, if_neg hu, acceptedFor, if_pos ⟨rfl, rfl⟩,
            acceptedFor_seen u rest (u :: seen) (List.mem_cons_self u seen)]
          simp
        · rw [dedupRun, if_neg hu, acceptedFor, if_neg (by simp [hut]),
            ih (u :: seen) (by simp [List.mem_cons, ht, Ne.symm hut])]
          simp [List.mem_cons, Ne.symm hut]

/-- C6: the deduplication guard accepts each distinct reply token exactly
once: over any batch, at most one delivery carrying a given token is
handled; when the token is fresh (not yet recorded) and present in the
batch, exactly one delivery — the first — is handled, and with the token
already recorded every delivery carrying it is skipped before any handler
side effect runs, so a duplicate delivery produces at most one observable
reply or push. -/
theorem dedup_accepts_exactly_once (seen : List String) (toks : List (Option String))
    (t : String) :
    acceptedFor t (dedupRun seen toks) ≤ 1 ∧
    (t ∉ seen → some t ∈ toks → acceptedFor t (dedupRun seen toks) = 1) ∧
    (t ∉ seen → some t ∉ toks → acceptedFor t (dedupRun seen toks) = 0) ∧
    (t ∈ seen → acceptedFor t (dedupRun seen toks) = 0) := by
  refine ⟨?_, fun h1 h2 => by rw [acceptedFor_unseen t toks seen h1, if_pos h2],
    fun h1 h2 => by rw [acceptedFor_unseen t toks seen h1, if_neg h2],
    fun h => acceptedFor_seen t toks seen h⟩
  by_cases h : t ∈ seen
  · rw [acceptedFor_seen t toks seen h]
    omega
  · rw [acceptedFor_unseen t toks seen h]
    split <;> omega

/-- Witness for C6 at a concrete input: a batch redelivering the same
reply token twice gets exactly one accepted delivery. -/
theorem dedup_accepts_exactly_once_witness :
    acceptedFor "tokA" (dedupRun [] [some "tokA", some "tokA", none]) = 1 :=
  (dedup_accepts_exactly_once [] [some "tokA", some "tokA", none] "tokA").2.1
    (by simp) (by simp)

/-! ### Menu rate limiter (part_007's `canSend`/`sendMenu`, part_002's
`canSendMessage`) -/

/-- The 60-second minimum interval (`INTERVAL = 60000` ms). -/
def INTERVAL : Nat := 60000

/-- Embedding of part_007's `canSend`: permit — and record `now` as the
conversation's timestamp — when no timestamp is recorded or more than
`INTERVAL` ms have elapsed; otherwise refuse and leave the table
unchanged. -/
def canSend (tbl : List (String × Nat)) (gid : String) (now : Nat) :
    Bool × List (String × Nat) :=
  match lookupA gid tbl with
  | none => (true, insertA gid now tbl)
  | some last =>
    if now - last > INTERVAL then (true, insertA gid now tbl) else (false, tbl)

/-- Embedding of part_007's `sendMenu` for a platform that accepts the
push: when `canSend` refuses, return immediately with no outbound push;
when it permits, perform exactly one `pushMessage`.  The first component
counts outbound pushes. -/
def sendMenu (tbl : List (String × Nat)) (gid : String) (now : Nat) :
    Nat × List (String × Nat) :=
  let r := canSend tbl gid now
  (if r.1 then 1 else 0, r.2)

/-- C7: with `minInterval = 60` seconds, two `sendMenu` calls for the
same conversation within 60 seconds produce exactly one outbound push:
the first call (with no recorded timestamp) pushes, the second is
silently skipped, and in general a push is permitted only when the
current time minus the conversation's recorded timestamp exceeds
`INTERVAL`. -/
theorem menu_rate_limited (tbl : List (String × Nat)) (gid : String) (t1 t2 : Nat)
    (h0 : lookupA gid tbl = none) (_h1 : t1 ≤ t2) (h2 : t2 - t1 ≤ INTERVAL) :
    (sendMenu tbl gid t1).1 = 1 ∧
    (sendMenu (sendMenu tbl gid t1).2 gid t2).1 = 0 ∧
    (sendMenu tbl gid t1).1 + (sendMenu (sendMenu tbl gid t1).2 gid t2).1 = 1 ∧
    (∀ (tbl' : List (String × Nat)) (last now : Nat),
        lookupA gid tbl' = some last → ¬ now - last > INTERVAL →
        (canSend tbl' gid now).1 = false) := by
  have hc1 : canSend tbl gid t1 = (true, insertA gid t1 tbl) := by
    simp only [canSend, h0]
  have hl2 : lookupA gid (insertA gid t1 tbl) = some t1 :=
    lookupA_insertA_self gid t1 tbl
  have hc2 : canSend (insertA gid t1 tbl) gid t2 = (false, insertA gid t1 tbl) := by
    simp only [canSend, hl2]
    rw [if_neg (by omega)]
  refine ⟨?_, ?_, ?_, ?_⟩
  · simp [sendMenu, hc1]
  · simp [sendMenu, hc1, hc2]
  · simp [sendMenu, hc1, hc2]
  · intro tbl' last now hl hle
    simp only [canSend, hl]
    rw [if_neg hle]

/-- Witness for C7 at concrete inputs: a second menu request 49 seconds
after the first is skipped, leaving exactly one push. -/
theorem menu_rate_limited_witness :
    (sendMenu [] "G1" 1000).1 = 1 ∧
    (sendMenu (sendMenu [] "G1" 1000).2 "G1" 50000).1 = 0 :=
  ⟨(menu_rate_limited [] "G1" 1000 50000 rfl (by omega) (by decide)).1,
    (menu_rate_limited [] "G1" 1000 50000 rfl (by omega) (by decide)).2.1⟩

/-! ### Event routing and per-event exception handling (part_005's
`processEventsAsync` and the server.js webhook route)

A handler outcome is abstracted as an `Except` value.  In part_005 each
event's handler runs inside its own `try`/`catch`: a handler exception
is caught and logged at that event's boundary and the loop moves on to
the next event; the processed list pairs each event with whether its
handler completed without throwing.  The server.js webhook (lines
171-288) instead maps the events through `Promise.all` with no per-event
`try`/`catch`: every started callback still runs to completion (promise
rejection cancels nothing), but one handler's exception rejects
`Promise.all` and is caught and logged only by the route-level catch,
which answers HTTP 500 for the whole batch instead of 200. -/

def eventOutcome {α : Type} (handle : α → Except String Unit) (e : α) : Bool :=
  match handle e with
  | .ok _ => true
  | .error _ => false

def processEventsAsync {α : Type} (handle : α → Except String Unit) :
    List α → List (α × Bool)
  | [] => []
  | e :: rest =>
    match handle e with
    | .ok _ => (e, true) :: processEventsAsync handle rest
    | .error _ => (e, false) :: processEventsAsync handle rest

theorem processEventsAsync_cons {α : Type} (handle : α → Except String Unit)
    (e : α) (rest : List α) :
    processEventsAsync handle (e :: rest) =
      (e, eventOutcome handle e) :: processEventsAsync handle rest := by
  cases h : handle e with
  | ok u => simp only [processEventsAsync, eventOutcome, h]
  | error msg => simp only [processEventsAsync, eventOutcome, h]

theorem processEventsAsync_append {α : Type} (handle : α → Except String Unit)
    (es₁ es₂ : List α) :
    processEventsAsync handle (es₁ ++ es₂) =
      processEventsAsync handle es₁ ++ processEventsAsync handle es₂ := by
  induction es₁ with
  | nil => rfl
  | cons e rest ih =>
    rw [List.cons_append, processEventsAsync_cons, processEventsAsync_cons, ih,
      List.cons_append]

theorem processEventsAsync_length {α : Type} (handle : α → Except String Unit)
    (es : List α) : (processEventsAsync handle es).length = es.length := by
  induction es with
  | nil => rfl
  | cons e rest ih =>
    rw [processEventsAsync_cons, List.length_cons, List.length_cons, ih]

/-- Embedding of the server.js webhook route (lines 171-288): the first
component lists every event callback started by `events.map` with its
outcome — all of them run, a rejection cancels no sibling promise — and
the second component is the HTTP status of the response: 200 when
`Promise.all` resolves (`res.sendStatus(200)`), 500 when any handler
threw, since without a per-event `try`/`catch` the exception reaches
only the route-level catch (`console.error` + `res.sendStatus(500)`). -/
def webhookRoute {α : Type} (handle : α → Except String Unit) (events : List α) :
    List (α × Bool) × Nat :=
  let ran := events.map fun e => (e, eventOutcome handle e)
  (ran, if ran.all (fun p => p.2) then 200 else 500)

/-- Counterexample to C8 as stated: in the cited server.js webhook, an
exception thrown while handling the first event of a two-event batch is
not caught at that event's boundary — the sibling callback completes,
yet the whole batch is answered with HTTP 500 by the batch-level catch
instead of being acknowledged with 200. -/
theorem events_isolated_counterexample :
    (webhookRoute (fun n => if n = 1 then Except.error "replyMessage 失敗"
      else Except.ok ()) [1, 2]).1 = [(1, false), (2, true)] ∧
    (webhookRoute (fun n => if n = 1 then Except.error "replyMessage 失敗"
      else Except.ok ()) [1, 2]).2 = 500 :=
  ⟨rfl, rfl⟩

/-- C8 (amended): every event in a batch is processed regardless of how
the handler behaves on its siblings — in part_005's `processEventsAsync`
a handler exception is caught and logged at that event's boundary, the
events before and after a failing event are processed exactly as they
would be on their own, and every event receives an entry; in the
server.js webhook every started callback likewise runs to completion,
but there is no per-event `try`/`catch`: one event's exception is caught
and logged only at the batch level, so the route answers HTTP 500 for
the whole batch, and only a batch whose every handler succeeded is
acknowledged with 200. -/
theorem events_exception_handling {α : Type} (handle : α → Except String Unit)
    (es₁ es₂ : List α) (e : α) :
    processEventsAsync handle (es₁ ++ e :: es₂) =
      processEventsAsync handle es₁ ++
        (e, eventOutcome handle e) :: processEventsAsync handle es₂ ∧
    (processEventsAsync handle (es₁ ++ e :: es₂)).length = (es₁ ++ e :: es₂).length ∧
    (webhookRoute handle (es₁ ++ e :: es₂)).1 =
      (es₁ ++ e :: es₂).map (fun x => (x, eventOutcome handle x)) ∧
    (eventOutcome handle e = false →
        (webhookRoute handle (es₁ ++ e :: es₂)).2 = 500) ∧
    ((∀ x ∈ es₁ ++ e :: es₂, eventOutcome handle x = true) →
        (webhookRoute handle (es₁ ++ e :: es₂)).2 = 200) := by
  refine ⟨by rw [processEventsAsync_append, processEventsAsync_cons],
    processEventsAsync_length handle (es₁ ++ e :: es₂), rfl, ?_, ?_⟩
  · intro hfail
    have hmem : (e, eventOutcome handle e) ∈
        (es₁ ++ e :: es₂).map (fun x => (x, eventOutcome handle x)) :=
      List.mem_map_of_mem _ (by simp)
    have hall : ((es₁ ++ e :: es₂).map
        (fun x => (x, eventOutcome handle x))).all (fun p => p.2) = false := by
      cases hc : ((es₁ ++ e :: es₂).map
          (fun x => (x, eventOutcome handle x))).all (fun p => p.2) with
      | false => rfl
      | true =>
        have h4 := List.all_eq_true.mp hc _ hmem
        rw [hfail] at h4
        cases h4
    have hstat : (webhookRoute handle (es₁ ++ e :: es₂)).2 =
        if ((es₁ ++ e :: es₂).map
          (fun x => (x, eventOutcome handle x))).all (fun p => p.2) then 200 else 500 :=
      rfl
    rw [hstat, hall]
    simp
  · intro hok
    have hall : ((es₁ ++ e :: es₂).map
        (fun x => (x, eventOutcome handle x))).all (fun p => p.2) = true := by
      rw [List.all_eq_true]
      intro p hp
      rcases List.mem_map.mp hp with ⟨x, hx, rfl⟩
      exact hok x hx
    have hstat : (webhookRoute handle (es₁ ++ e :: es₂)).2 =
        if ((es₁ ++ e :: es₂).map
          (fun x => (x, eventOutcome handle x))).all (fun p => p.2) then 200 else 500 :=
      rfl
    rw [hstat, hall]
    simp

/-- Witness for the amended C8 at concrete inputs: a two-event batch
whose first handler throws is answered 500 by the server.js route, and
an all-successful batch is acknowledged with 200. -/
theorem events_exception_handling_witness :
    (webhookRoute (fun n => if n = 1 then Except.error "replyMessage 失敗"
      else Except.ok ()) [1, 2]).2 = 500 ∧
    (webhookRoute (fun _ : Nat => Except.ok ()) [1, 2]).2 = 200 :=
  ⟨(events_exception_handling (fun n => if n = 1 then Except.error "replyMessage 失敗"
      else Except.ok ()) [] [2] 1).2.2.2.1 rfl,
    (events_exception_handling (fun _ : Nat => Except.ok ()) [] [2] 1).2.2.2.2
      (fun _ _ => rfl)⟩

/-! ### Text-message handling on an unconfigured conversation
(server.js message handler and part_007's message handler)

The DeepSeek calls (`detectLanguageWithDeepSeek`, `translateWithDeepSeek`
/ `translateSingle`) are abstracted as oracles; `deepseekCalls` counts
how many such translation-backend requests the handler issues. -/

/-- Notice replied by server.js when a message arrives before any
language has been selected. -/
def configNotice : String := "請先選擇翻譯語言！隨時輸入「!選單」或「!設定」可重新顯示選單。"

/-- server.js `supportedLanguages`. -/
def supportedLanguages : List String := ["en", "th", "vi", "id"]

/-- server.js `languageNames` lookup table; an unknown code indexes the
object to JavaScript `undefined`, which stringifies as `"undefined"`. -/
def languageNames (l : String) : String :=
  if l = "en" then "英語"
  else if l = "th" then "泰語"
  else if l = "vi" then "越語"
  else if l = "id" then "印尼語"
  else if l = "zh-TW" then "繁體中文"
  else "undefined"

/-- Observable outcome of the server.js message handler: the text reply
sent through `replyMessage` (if any), the number of DeepSeek API calls
issued, and whether the language-selection menu was (re)sent. -/
structure MsgOutcome where
  reply : Option String
  deepseekCalls : Nat
  menuSent : Bool
deriving DecidableEq, Repr

/-- Embedding of the server.js text-message handler: `!選單`/`!設定`
re-show the menu; an empty selected-language set gets the configuration
notice plus the menu and no DeepSeek call; otherwise the language is
detected (one DeepSeek call), Chinese text fans out one translation per
selected language unless `no-translate` is selected, text in a supported
language is translated once into Traditional Chinese, and a non-empty
reply text is sent trimmed. -/
def handleTextMessage (detect : String → Option String)
    (translate : String → String → String)
    (store : List (String × List String)) (gid txt : String) : MsgOutcome :=
  if txt = "!選單" ∨ txt = "!設定" then ⟨none, 0, true⟩
  else
    let sel := (lookupA gid store).getD []
    if sel.length = 0 then ⟨some configNotice, 0, true⟩
    else
      let dl := detect txt
      if dl = some "zh-TW" ∨ dl = some "zh" then
        if "no-translate" ∈ sel then ⟨none, 1, false⟩
        else
          let replyText := String.intercalate "\n"
            (sel.map fun l => "【" ++ languageNames l ++ "】" ++ translate txt (languageNames l))
          ⟨if replyText = "" then none else some replyText.trim, 1 + sel.length, false⟩
      else
        match dl with
        | some d =>
          if d ∈ supportedLanguages then
            let replyText := "【繁體中文】" ++ translate txt "繁體中文"
            ⟨if replyText = "" then none else some replyText.trim, 2, false⟩
          else ⟨none, 1, false⟩
        | none => ⟨none, 1, false⟩

/-- part_007's `isChinese` test, the regex `/[一-鿿]/`. -/
def containsChinese (s : String) : Bool :=
  s.data.any fun c => decide (0x4e00 ≤ c.toNat ∧ c.toNat ≤ 0x9fff)

/-- Observable outcome of part_007's text-message handler: the text
replies sent and the number of DeepSeek calls issued. -/
structure MsgOutcome7 where
  replies : List String
  deepseekCalls : Nat
deriving DecidableEq, Repr

/-- Embedding of part_007's text-message handler: `!設定` re-shows the
menu; an unconfigured conversation is ignored without any reply
(source comment `未設定，不回覆`); Chinese text fans out one
`translateWithDeepSeek` call and one reply per selected language, other
text is translated once into `zh-TW`. -/
def handleTextMessage007 (translate : String → String → String)
    (store : List (String × List String)) (gid txt : String) : MsgOutcome7 :=
  if txt = "!設定" then ⟨[], 0⟩
  else
    let set := (lookupA gid store).getD []
    if set.length = 0 then ⟨[], 0⟩
    else if containsChinese txt then
      ⟨set.map (fun c => translate txt c), set.length⟩
    else ⟨[translate txt "zh-TW"], 1⟩

/-- Counterexample to C9 as stated: part_007's message handler — one of
the claim's cited code locations — sends no reply at all (rather than
the please-configure notice) for the text message `你好` in a
conversation with an empty selected-language set. -/
theorem empty_languages_notice_counterexample :
    (handleTextMessage007 (fun _ _ => "hello") [] "G1" "你好").replies = [] := rfl

/-- C9 (amended): for every non-command text message arriving in a
conversation whose selected-language set is empty, no translation
backend call is made by either handler variant; the server.js handler
replies with the please-configure notice (and re-sends the menu), while
the part_007 handler returns without replying at all. -/
theorem empty_languages_no_backend (detect : String → Option String)
    (translate : String → String → String)
    (store : List (String × List String)) (gid txt : String)
    (h1 : txt ≠ "!選單") (h2 : txt ≠ "!設定")
    (h3 : getLanguages store gid = []) :
    handleTextMessage detect translate store gid txt = ⟨some configNotice, 0, true⟩ ∧
    handleTextMessage007 translate store gid txt = ⟨[], 0⟩ := by
  have hsel : (lookupA gid store).getD [] = [] := h3
  constructor
  · simp [handleTextMessage, h1, h2, hsel]
  · simp [handleTextMessage007, h2, hsel]

/-- Witness for the amended C9 at a concrete input: the unconfigured
conversation `G1` receiving `你好`. -/
theorem empty_languages_no_backend_witness :
    handleTextMessage (fun _ => none) (fun _ _ => "hello") [] "G1" "你好" =
      ⟨some configNotice, 0, true⟩ ∧
    handleTextMessage007 (fun _ _ => "hello") [] "G1" "你好" = ⟨[], 0⟩ :=
  empty_languages_no_backend (fun _ => none) (fun _ _ => "hello") [] "G1" "你好"
    (by decide) (by decide) rfl
